import Mathlib

/-!
Verification of the volumetric dataset synthesis engine of the
ska-sdc-2-NASE repository (src/utils/data.py, src/utils/segmentmap.py).

The Python source is shallowly embedded: numpy integer arrays become
lists of integers, numpy float scalars become rationals, the float to
int cast (astype, which truncates toward zero) becomes an explicit
truncation, and np.round (round half to even) is modelled explicitly.
The external libraries (sobol_seq, the global numpy random generator,
the skimage ellipse rasterizer) are modelled as parameters: only their
interface behaviour documented by those libraries is used.
-/

namespace SKA

/-! ## Numeric primitives shared by the embedding -/

/-- Truncation toward zero, the semantics of numpy astype(int) and of the
Python int() cast applied to a float. -/
def npTrunc (q : ℚ) : ℤ := if 0 ≤ q then ⌊q⌋ else -⌊-q⌋

/-- np.round: round half to even (banker's rounding). -/
def npRound (q : ℚ) : ℤ :=
  if q - ⌊q⌋ < 1/2 then ⌊q⌋
  else if (1:ℚ)/2 < q - ⌊q⌋ then ⌊q⌋ + 1
  else if ⌊q⌋ % 2 = 0 then ⌊q⌋ else ⌊q⌋ + 1

/-- The `if not n % 2: n += 1` idiom of segmentmap.py: force an integer
to be odd by incrementing it when even. -/
def forceOdd (n : ℤ) : ℤ := if n % 2 = 0 then n + 1 else n

/-! ## dense_cube (src/utils/segmentmap.py lines 38-56)

Only the stamp geometry (cross-section side, channel count) is embedded;
the voxel contents come from skimage draw.ellipse / transform.rotate and
stay abstract (they do not matter for the shape claims). -/

/-- Side of the square cross-section of the ellipsoid stamp:
np.round(2 * max(major, minor)) cast to int, forced odd, floored at 3. -/
def square_side (major minor : ℚ) : ℤ :=
  max 3 (forceOdd (npRound (2 * max major minor)))

/-- Channel depth of the ellipsoid stamp: np.round(n_channels) cast to
int, forced odd. -/
def cube_channels (nch : ℚ) : ℤ := forceOdd (npRound nch)

theorem forceOdd_odd (n : ℤ) : forceOdd n % 2 = 1 := by
  unfold forceOdd
  split <;> omega

theorem npRound_nonneg (q : ℚ) (h : 0 ≤ q) : 0 ≤ npRound q := by
  have hf : (0:ℤ) ≤ ⌊q⌋ := Int.floor_nonneg.mpr h
  unfold npRound
  split
  · exact hf
  · split
    · omega
    · split <;> omega

/-- Claim C8: for a record with nonnegative radii and nonnegative
n_channels, the dense_cube stamp (segmentmap.py lines 38-56) has an odd
square cross-section side equal to np.round(2 * max(major, minor))
forced to the next odd integer and floored at 3, and an odd channel
count of at least 1 obtained from np.round(n_channels) forced odd. -/
theorem claim_C8_dense_cube_shape (major minor nch : ℚ)
    (hmaj : 0 ≤ major) (hmin : 0 ≤ minor) (hnch : 0 ≤ nch) :
    square_side major minor % 2 = 1 ∧ 3 ≤ square_side major minor ∧
    square_side major minor = max 3 (forceOdd (npRound (2 * max major minor))) ∧
    cube_channels nch % 2 = 1 ∧ 1 ≤ cube_channels nch := by
  have hodd := forceOdd_odd (npRound (2 * max major minor))
  have hch := forceOdd_odd (npRound nch)
  have hnn : 0 ≤ npRound nch := npRound_nonneg nch hnch
  refine ⟨?_, ?_, rfl, ?_, ?_⟩
  · unfold square_side; omega
  · unfold square_side; omega
  · exact hch
  · unfold cube_channels forceOdd at *; omega

/-- Witness for C8 at major = minor = n_channels = 1. -/
theorem claim_C8_dense_cube_shape_witness :
    0 ≤ (1:ℚ) ∧ (square_side 1 1 % 2 = 1 ∧ 3 ≤ square_side 1 1 ∧
      square_side 1 1 = max 3 (forceOdd (npRound (2 * max 1 1))) ∧
      cube_channels 1 % 2 = 1 ∧ 1 ≤ cube_channels 1) :=
  ⟨by norm_num, claim_C8_dense_cube_shape 1 1 1 (by norm_num) (by norm_num) (by norm_num)⟩

/-! ## inside_box (src/utils/data.py lines 127-143)

A window on one axis is a pair of pixel bounds; an axis of the points
argument is a list of windows (the rows of the (n, 2) numpy array).
np.where(points[i] < min)[0] flags every row with either entry below
the minimum; those rows are translated to start at the minimum, using
the length of ROW 0 of that axis (total_length is read from
points[i][0]).  The second np.where pass then flags, on the updated
array, every row with an entry at or beyond the maximum and translates
it to end at max - 1, again with row 0's length.  Row 0's length is
unchanged by the first pass, so both passes use the same length. -/

/-- One window: the (lower, upper) pixel bounds of one row of a numpy
(n, 2) coordinate array. -/
abbrev Window := ℤ × ℤ

/-- First clamping pass of inside_box for one row: rows with an entry
below the minimum are translated to start at the minimum, keeping the
length L taken from row 0. -/
def clampLow (m L : ℤ) (r : Window) : Window :=
  if r.1 < m ∨ r.2 < m then (m, m + L) else r

/-- Second clamping pass of inside_box for one row: rows with an entry
at or beyond the maximum are translated to (max - L - 1, max - 1). -/
def clampHigh (M L : ℤ) (r : Window) : Window :=
  if M ≤ r.1 ∨ M ≤ r.2 then (M - L - 1, M - 1) else r

/-- inside_box restricted to one axis: both passes, with the clamp
length read from row 0 as in the source. -/
def insideAxis (m M : ℤ) (rows : List Window) : List Window :=
  (rows.map (clampLow m (rows.headI.2 - rows.headI.1))).map
    (clampHigh M (rows.headI.2 - rows.headI.1))

/-- inside_box: apply the axis clamp to every axis with its own
min/max bound. -/
def inside_box (points : List (List Window)) (mins maxs : List ℤ) :
    List (List Window) :=
  (points.zip (mins.zip maxs)).map (fun a => insideAxis a.2.1 a.2.2 a.1)

/-- A window of length L whose bounds both lie in the half-open
interval from m to M. -/
abbrev goodWin (m M L : ℤ) (s : Window) : Prop :=
  s.2 - s.1 = L ∧ m ≤ s.1 ∧ s.1 < M ∧ m ≤ s.2 ∧ s.2 < M

theorem clamp_good (m M L : ℤ) (r : Window) (hr : r.2 - r.1 = L)
    (h0 : 0 ≤ L) (hLM : m + L < M) :
    goodWin m M L (clampHigh M L (clampLow m L r)) := by
  unfold clampLow clampHigh
  split_ifs <;> refine ⟨?_, ?_, ?_, ?_, ?_⟩ <;> dsimp only at * <;> omega

theorem insideAxis_good (m M L : ℤ) (rows : List Window)
    (hall : ∀ r ∈ rows, r.2 - r.1 = L) (h0 : 0 ≤ L) (hLM : m + L < M) :
    ∀ s ∈ insideAxis m M rows, goodWin m M L s := by
  cases rows with
  | nil => intro s hs; simp [insideAxis] at hs
  | cons r0 rest =>
    intro s hs
    unfold insideAxis at hs
    rw [List.map_map, List.mem_map] at hs
    obtain ⟨r, hrmem, hrs⟩ := hs
    have hL0 : (r0 :: rest).headI.2 - (r0 :: rest).headI.1 = L :=
      hall r0 (List.mem_cons_self r0 rest)
    rw [hL0] at hrs
    rw [← hrs]
    exact clamp_good m M L r (hall r hrmem) h0 hLM

theorem inside_box_getD (points : List (List Window)) (mins maxs : List ℤ)
    (i : ℕ) (hi : i < points.length)
    (hm : mins.length = points.length) (hM : maxs.length = points.length) :
    (inside_box points mins maxs).getD i [] =
      insideAxis (mins.getD i 0) (maxs.getD i 0) (points.getD i []) := by
  induction points generalizing mins maxs i with
  | nil => simp at hi
  | cons p ps ih =>
    cases mins with
    | nil => simp at hm
    | cons m ms =>
      cases maxs with
      | nil => simp at hM
      | cons M Ms =>
        cases i with
        | zero => rfl
        | succ n =>
          simp only [List.length_cons] at hi hm hM
          have h1 : (inside_box (p :: ps) (m :: ms) (M :: Ms)).getD (n+1) [] =
              (inside_box ps ms Ms).getD n [] := rfl
          rw [h1]
          simp only [List.getD_cons_succ]
          exact ih ms Ms n (by omega) (by omega) (by omega)

/-- Claim C3, counterexample: as stated the claim is false.  The clamp
length is read from row 0 of the axis, so when an axis holds windows of
different lengths, a clamped window takes on row 0's length instead of
its own: axis [[0,5], [-1,2]] with bounds [0,10) clamps row 1 (length 3)
to (0,5) (length 5). -/
theorem claim_C3_counterexample :
    (inside_box [[((0:ℤ), (5:ℤ)), (-1, 2)]] [0] [10]) = [[(0, 5), (0, 5)]] ∧
    ¬ (((0:ℤ), (5:ℤ)).2 - ((0:ℤ), (5:ℤ)).1 = ((-1:ℤ), (2:ℤ)).2 - ((-1:ℤ), (2:ℤ)).1) := by
  constructor
  · rfl
  · decide

/-- Claim C3, amended: if on every axis all windows share one length L
with 0 ≤ L and min + L < max, then every output window of inside_box
keeps the length of the corresponding input window and has both bounds
inside the half-open range from min to max.  (The hypothesis is what the
callers in data.py guarantee: every axis's windows are built with one
common length; without it the clamp rewrites a window to row 0's
length, and with min + L ≥ max the two clamp passes interfere and push
a bound below min.) -/
theorem claim_C3_inside_box_clamp (points : List (List Window)) (mins maxs : List ℤ)
    (hm : mins.length = points.length) (hM : maxs.length = points.length)
    (h : ∀ i, i < points.length → ∃ L, 0 ≤ L ∧
      mins.getD i 0 + L < maxs.getD i 0 ∧ ∀ r ∈ points.getD i [], r.2 - r.1 = L) :
    ∀ i, i < points.length → ∀ r ∈ points.getD i [],
      ∀ s ∈ (inside_box points mins maxs).getD i [],
        s.2 - s.1 = r.2 - r.1 ∧ mins.getD i 0 ≤ s.1 ∧ s.1 < maxs.getD i 0 ∧
          mins.getD i 0 ≤ s.2 ∧ s.2 < maxs.getD i 0 := by
  intro i hi r hr s hs
  obtain ⟨L, h0, hLM, hall⟩ := h i hi
  rw [inside_box_getD points mins maxs i hi hm hM] at hs
  have hgood := insideAxis_good (mins.getD i 0) (maxs.getD i 0) L
    (points.getD i []) hall h0 hLM s hs
  have hrL : r.2 - r.1 = L := hall r hr
  rw [hrL]
  exact hgood

/-- Witness for the amended C3 on the axis [[2,5], [-1,2]] (common
length 3) with bounds [0, 10): the clamped second window is (0, 3). -/
theorem claim_C3_inside_box_clamp_witness :
    ((0:ℤ), (3:ℤ)).2 - ((0:ℤ), (3:ℤ)).1 = ((-1:ℤ), (2:ℤ)).2 - ((-1:ℤ), (2:ℤ)).1 ∧
    (0:ℤ) ≤ ((0:ℤ), (3:ℤ)).1 ∧ ((0:ℤ), (3:ℤ)).1 < 10 ∧
    (0:ℤ) ≤ ((0:ℤ), (3:ℤ)).2 ∧ ((0:ℤ), (3:ℤ)).2 < 10 :=
  claim_C3_inside_box_clamp [[(2, 5), (-1, 2)]] [0] [10] rfl rfl
    (by
      intro i hi
      simp only [List.length_cons, List.length_nil] at hi
      interval_cases i
      exact ⟨3, by decide, by decide, by decide⟩)
    0 (by decide) (-1, 2) (by decide) (0, 3) (by decide)

/-! ## random_center_box (src/utils/data.py lines 146-154)

radius = int(total_length / 2) - precuation; for every axis i and draw
row j the lower bound is (rdn[j,i] * 2 * radius + center[i]
- int(total_length/2) - radius) cast to int (truncation toward zero),
the upper bound is lower + total_length, and the result is clamped with
inside_box. -/

/-- Lower bound of one drawn window before clamping. -/
def center_box_lower (tl prec c : ℤ) (q : ℚ) : ℤ :=
  npTrunc (q * (2 * ((Int.tdiv tl 2 - prec : ℤ) : ℚ)) + (c : ℚ)
    - ((Int.tdiv tl 2 : ℤ) : ℚ) - ((Int.tdiv tl 2 - prec : ℤ) : ℚ))

/-- random_center_box: one axis per column of the draw matrix, one
window per draw row, then inside_box. -/
def random_center_box (rdn : List (List ℚ)) (tl : ℤ) (center : List ℤ)
    (prec : ℤ) (mins maxs : List ℤ) : List (List Window) :=
  inside_box
    ((List.range rdn.headI.length).map (fun i =>
      rdn.map (fun row =>
        (center_box_lower tl prec (center.getD i 0) (row.getD i 0),
         center_box_lower tl prec (center.getD i 0) (row.getD i 0) + tl))))
    mins maxs

theorem npTrunc_nonpos (q : ℚ) (h : q ≤ 0) : npTrunc q ≤ 0 := by
  unfold npTrunc
  split
  · have h2 : ⌊q⌋ ≤ ⌊(0:ℚ)⌋ := Int.floor_le_floor h
    simpa using h2
  · have h2 : (0:ℤ) ≤ ⌊-q⌋ := Int.floor_nonneg.mpr (by linarith)
    omega

theorem getD_map_range {α : Type} (n : ℕ) (f : ℕ → α) (i : ℕ) (hi : i < n)
    (dflt : α) : ((List.range n).map f).getD i dflt = f i := by
  rw [List.getD_eq_getElem?_getD, List.getElem?_map, List.getElem?_range hi]
  rfl

theorem getD_mem_of_lt {α : Type} (l : List α) (n : ℕ) (d : α)
    (h : n < l.length) : l.getD n d ∈ l := by
  rw [List.getD_eq_getElem?_getD, List.getElem?_eq_getElem h]
  simp [List.getElem_mem]

theorem insideAxis_all_zero_tl (M tl : ℤ) (rows : List Window)
    (hform : ∀ r ∈ rows, r.2 = r.1 + tl ∧ r.1 ≤ 0)
    (htl : 0 ≤ tl) (hMtl : tl < M) :
    ∀ j, j < rows.length → (insideAxis 0 M rows).getD j (0, 0) = (0, tl) := by
  have hall : ∀ s ∈ insideAxis 0 M rows, s = (0, tl) := by
    cases rows with
    | nil => intro s hs; simp [insideAxis] at hs
    | cons r0 rest =>
      intro s hs
      unfold insideAxis at hs
      rw [List.map_map, List.mem_map] at hs
      obtain ⟨r, hrmem, hrs⟩ := hs
      obtain ⟨h02, h01⟩ := hform r0 (List.mem_cons_self r0 rest)
      have hL : (r0 :: rest).headI.2 - (r0 :: rest).headI.1 = tl := by
        simp only [List.headI]; omega
      rw [hL] at hrs
      obtain ⟨hr2, hr1⟩ := hform r hrmem
      rw [← hrs]
      unfold clampLow clampHigh
      dsimp only [Function.comp]
      split_ifs with hc1 hc2 hc2 <;>
        (apply Prod.ext <;> dsimp only <;> omega)
  intro j hj
  have hlen : (insideAxis 0 M rows).length = rows.length := by
    unfold insideAxis
    simp
  apply hall
  apply getD_mem_of_lt
  omega

/-- Claim C9, counterexample: as stated the claim is false.  With draws
(0,0), total_length 5, center (0,0), precaution 0, min bounds [0,0] but
max bounds [3,3] (nonnegative, yet smaller than total_length), the two
clamp passes interfere and the returned window on axis 0 is (-3, 2):
its lower bound is not 0. -/
theorem claim_C9_counterexample :
    ((random_center_box [[0, 0]] 5 [0, 0] 0 [0, 0] [3, 3]).getD 0 []).getD 0 (0, 0)
        = (-3, 2) ∧
    (((random_center_box [[0, 0]] 5 [0, 0] 0 [0, 0] [3, 3]).getD 0 []).getD 0 (0, 0)).1
        ≠ 0 := by
  have h : ((random_center_box [[0, 0]] 5 [0, 0] 0 [0, 0] [3, 3]).getD 0 []).getD 0 (0, 0)
      = (-3, 2) := by
    norm_num [random_center_box, inside_box, insideAxis, center_box_lower,
      clampLow, clampHigh, npTrunc, Int.tdiv]
  exact ⟨h, by rw [h]; decide⟩

/-- Claim C9, amended: with draws in [0,1), a rectangular draw matrix,
0 ≤ total_length, center 0, precaution 0, min bounds 0, and max bounds
STRICTLY GREATER than total_length on every axis, every window returned
by random_center_box is exactly (0, total_length): lower bound 0 and
length total_length.  (The claim allowed arbitrary nonnegative max
bounds; when max ≤ total_length the second clamp pass pushes the lower
bound below 0, see the counterexample.) -/
theorem claim_C9_random_center_box (rdn : List (List ℚ)) (tl : ℤ)
    (center mins maxs : List ℤ)
    (hrect : ∀ row ∈ rdn, row.length = rdn.headI.length)
    (hq : ∀ row ∈ rdn, ∀ q ∈ row, 0 ≤ q ∧ q < 1)
    (htl : 0 ≤ tl)
    (hc : ∀ i, i < rdn.headI.length → center.getD i 0 = 0)
    (hmins : ∀ i, i < rdn.headI.length → mins.getD i 0 = 0)
    (hmaxs : ∀ i, i < rdn.headI.length → tl < maxs.getD i 0)
    (hm : mins.length = rdn.headI.length) (hM : maxs.length = rdn.headI.length) :
    ∀ i, i < rdn.headI.length → ∀ j, j < rdn.length →
      ((random_center_box rdn tl center 0 mins maxs).getD i []).getD j (0, 0)
        = (0, tl) := by
  intro i hi j hj
  unfold random_center_box
  have hlen : ((List.range rdn.headI.length).map (fun i =>
      rdn.map (fun row =>
        ((center_box_lower tl 0 (center.getD i 0) (row.getD i 0)),
         (center_box_lower tl 0 (center.getD i 0) (row.getD i 0)) + tl)))).length
      = rdn.headI.length := by simp
  rw [inside_box_getD _ mins maxs i (by omega) (by omega) (by omega)]
  rw [getD_map_range _ _ i hi]
  rw [hmins i hi]
  refine insideAxis_all_zero_tl _ tl _ ?_ htl (hmaxs i hi) j ?_
  swap
  · simpa using hj
  · intro r hr
    rw [List.mem_map] at hr
    obtain ⟨row, hrow, hrw⟩ := hr
    rw [← hrw]
    refine ⟨rfl, ?_⟩
    dsimp only
    rw [hc i hi]
    unfold center_box_lower
    apply npTrunc_nonpos
    have hqmem : row.getD i 0 ∈ row := by
      apply getD_mem_of_lt
      rw [hrect row hrow]
      exact hi
    obtain ⟨hq0, hq1⟩ := hq row hrow _ hqmem
    have hh : (0:ℤ) ≤ Int.tdiv tl 2 := Int.tdiv_nonneg htl (by norm_num)
    have hcast : (0:ℚ) ≤ ((Int.tdiv tl 2 : ℤ) : ℚ) := by exact_mod_cast hh
    have hmul : row.getD i 0 * (2 * ((Int.tdiv tl 2 - 0 : ℤ) : ℚ))
        ≤ 1 * (2 * ((Int.tdiv tl 2 - 0 : ℤ) : ℚ)) := by
      apply mul_le_mul_of_nonneg_right (le_of_lt hq1)
      push_cast
      linarith
    push_cast at hmul ⊢
    linarith

/-- Witness for the amended C9: draws [[0, 1/2]], total_length 5,
center (0,0), precaution 0, bounds [0,10) on both axes give the window
(0, 5) on axis 0 for draw row 0. -/
theorem claim_C9_random_center_box_witness :
    ((random_center_box [[0, 1/2]] 5 [0, 0] 0 [0, 0] [10, 10]).getD 0 []).getD 0 (0, 0)
      = (0, 5) :=
  claim_C9_random_center_box [[0, 1/2]] 5 [0, 0] [0, 0] [10, 10]
    (by intro row hrow; simp at hrow; rw [hrow]; rfl)
    (by
      intro row hrow q hqm
      simp at hrow
      rw [hrow] at hqm
      simp at hqm
      rcases hqm with h | h <;> rw [h] <;> norm_num)
    (by norm_num)
    (by intro i hi; simp at hi; interval_cases i <;> rfl)
    (by intro i hi; simp at hi; interval_cases i <;> rfl)
    (by intro i hi; simp at hi; interval_cases i <;> norm_num)
    rfl rfl 0 (by simp) 0 (by simp)

/-! ## Randomizer (src/utils/data.py lines 87-115)

The two external draw sources are modelled through their documented
interfaces.  sobol_seq.i4_sobol_generate(d, n, skip) is a pure function
of (d, n, skip), so it is a parameter of type Nat → Nat → Nat → Block.
np.random is a process-global stateful generator: np.random.uniform
reads and advances a hidden global state, and np.random.seed(s) sets
that state deterministically from s; it is modelled as an interface
with an abstract state type.  Crucially, Randomizer.__init__ stores the
seed but never calls np.random.seed — only reset() does — so a freshly
constructed seeded Randomizer draws from whatever global state the
process happens to have. -/

/-- One block of draws: n rows of d entries each. -/
abbrev Block := List (List ℚ)

/-- Interface of the process-global numpy generator: an abstract state,
the value uniform(size=(n,d)) returns in a given state, the state after
that call, and the state np.random.seed(s) installs. -/
structure UniformGen where
  State : Type
  uniform : State → ℕ → ℕ → Block
  next : State → ℕ → ℕ → State
  seedState : ℤ → State

/-- The two modes of Randomizer, selected by presence of a seed. -/
inductive RMode where
  | quasi : RMode
  | seeded : ℤ → RMode
deriving DecidableEq

/-- The state of a Randomizer instance together with the global numpy
generator state it draws from in seeded mode. -/
structure RandomizerState (G : UniformGen) where
  mode : RMode
  counter : ℕ
  g : G.State

/-- Randomizer.__init__: record the mode and zero the counter.  The
global generator state is left untouched — the seed is NOT applied. -/
def mkRandomizer (G : UniformGen) (seed : Option ℤ) (g0 : G.State) :
    RandomizerState G :=
  { mode := match seed with
            | none => RMode.quasi
            | some s => RMode.seeded s,
    counter := 0, g := g0 }

/-- self.rand(n, d, s): in quasi mode the sobol block at start index s;
in seeded mode a uniform draw from the global state (which advances),
ignoring s. -/
def randDraw (G : UniformGen) (sobol : ℕ → ℕ → ℕ → Block)
    (st : RandomizerState G) (n d s : ℕ) : Block × RandomizerState G :=
  match st.mode with
  | RMode.quasi => (sobol d n s, st)
  | RMode.seeded _ => (G.uniform st.g n d, { st with g := G.next st.g n d })

/-- Randomizer.sample(n, d): draw at the counter, then advance the
counter by n. -/
def sample (G : UniformGen) (sobol : ℕ → ℕ → ℕ → Block)
    (st : RandomizerState G) (n d : ℕ) : Block × RandomizerState G :=
  let r := randDraw G sobol st n d st.counter
  (r.1, { r.2 with counter := r.2.counter + n })

/-- Randomizer.rr_sample(n, d): draw at start index 0 without touching
the counter. -/
def rr_sample (G : UniformGen) (sobol : ℕ → ℕ → ℕ → Block)
    (st : RandomizerState G) (n d : ℕ) : Block × RandomizerState G :=
  randDraw G sobol st n d 0

/-- Randomizer.reset(): zero the counter and apply reset_f, which seeds
the global generator in seeded mode and does nothing in quasi mode. -/
def resetR (G : UniformGen) (st : RandomizerState G) : RandomizerState G :=
  match st.mode with
  | RMode.quasi => { st with counter := 0 }
  | RMode.seeded s => { st with counter := 0, g := G.seedState s }

/-- Running a list of sample(n, d) requests and collecting the returned
blocks, threading the state. -/
def sampleRun (G : UniformGen) (sobol : ℕ → ℕ → ℕ → Block) :
    RandomizerState G → List (ℕ × ℕ) → List Block
  | _, [] => []
  | st, nd :: rest =>
    let r := sample G sobol st nd.1 nd.2
    r.1 :: sampleRun G sobol r.2 rest

/-- A concrete instantiation of the generator interface used for the
counterexamples: the state is an integer, a draw returns an n x d block
filled with the state value, and each draw advances the state.  Any
stateful generator whose output depends on its state (as numpy's does —
otherwise seeding would have no effect) exhibits the same behaviour. -/
def demoGen : UniformGen where
  State := ℤ
  uniform := fun g n d => List.replicate n (List.replicate d (g : ℚ))
  next := fun g n d => g + (n : ℤ) * (d : ℤ)
  seedState := fun s => s

/-- The sobol parameter used in counterexamples; its value is
irrelevant there (seeded mode never consults it). -/
def sobol0 : ℕ → ℕ → ℕ → Block := fun _ _ _ => []

/-- After an explicit reset() the seed IS applied, and two same-seed
instances agree regardless of the ambient global state — for every
generator interface.  This is the behaviour the seeding contract
expects; the constructor alone does not establish it. -/
theorem seeded_sampleRun_agrees_after_reset (G : UniformGen)
    (sobol : ℕ → ℕ → ℕ → Block) (s : ℤ) (g1 g2 : G.State)
    (reqs : List (ℕ × ℕ)) :
    sampleRun G sobol (resetR G (mkRandomizer G (some s) g1)) reqs =
    sampleRun G sobol (resetR G (mkRandomizer G (some s) g2)) reqs := rfl

/-- Claim C1: the claim is the code's own contract, and the code
violates it.  Randomizer.__init__ stores the seed but never calls
np.random.seed (only reset() does, and create_data_set never calls
reset), so a seeded instance draws from the ambient global generator
state.  Two runs of the program differ in that ambient state; modelling
the two runs by global states 0 and 1 under the same seed 42, the very
first sample(1, 1) blocks already differ. -/
theorem claim_C1_seed_never_applied :
    sampleRun demoGen sobol0
        (mkRandomizer demoGen (some 42) ((0:ℤ) : demoGen.State)) [(1, 1)] ≠
    sampleRun demoGen sobol0
        (mkRandomizer demoGen (some 42) ((1:ℤ) : demoGen.State)) [(1, 1)] := by
  intro h
  simp [sampleRun, sample, randDraw, mkRandomizer, demoGen, sobol0,
    List.replicate] at h

/-- The seeded Randomizer state with seed 5 after an explicit reset():
global generator state seedState 5. -/
def st5 : RandomizerState demoGen :=
  resetR demoGen (mkRandomizer demoGen (some 5) ((99:ℤ) : demoGen.State))

/-- Claim C2, counterexample: as stated (both modes) the claim is
false.  In seeded mode rr_sample draws fresh values from the advancing
global stream — the code comment itself says "Reset sampling for Sobol
and Random for Uniform".  Starting from a properly reset seeded state,
calling sample(1,1) first changes what rr_sample(1,1) returns. -/
theorem claim_C2_counterexample :
    (rr_sample demoGen sobol0 (sample demoGen sobol0 st5 1 1).2 1 1).1 ≠
    (rr_sample demoGen sobol0 st5 1 1).1 := by
  intro h
  simp [rr_sample, sample, randDraw, st5, resetR, mkRandomizer, demoGen,
    sobol0, List.replicate] at h

/-- Claim C2, amended: the idempotent-restart property of rr_sample
holds in quasi-random mode only — there rr_sample returns the sobol
block at start index 0 whatever the counter and ambient state are.  In
seeded mode rr_sample depends on the global stream position (see the
counterexample), exactly as the source comment documents. -/
theorem claim_C2_rr_sample_quasi_restart (G : UniformGen)
    (sobol : ℕ → ℕ → ℕ → Block) (st1 st2 : RandomizerState G) (n d : ℕ)
    (h1 : st1.mode = RMode.quasi) (h2 : st2.mode = RMode.quasi) :
    (rr_sample G sobol st1 n d).1 = (rr_sample G sobol st2 n d).1 := by
  unfold rr_sample randDraw
  rw [h1, h2]

/-- Witness for the amended C2: two quasi-mode states with different
counters and different ambient generator states give the same
rr_sample block. -/
theorem claim_C2_rr_sample_quasi_restart_witness :
    (rr_sample demoGen sobol0
      ⟨RMode.quasi, 0, ((0:ℤ) : demoGen.State)⟩ 2 3).1 =
    (rr_sample demoGen sobol0
      ⟨RMode.quasi, 7, ((3:ℤ) : demoGen.State)⟩ 2 3).1 :=
  claim_C2_rr_sample_quasi_restart demoGen sobol0 _ _ 2 3 rfl rfl

/-! ## get_spans (src/utils/segmentmap.py lines 59-74)

Per axis, with p the source coordinate, full the cube extent and small
the stamp extent: the lower span is p when p - small//2 < 0, else
small//2; the upper span is full - p when p + small//2 > full, else
small//2; the function appends (lower, upper + 1).  The stamp is then
written at the index range from center - lower to center + (upper+1). -/

/-- The span pair computed by get_spans for one axis. -/
def spanAxis (full small p : ℤ) : ℤ × ℤ :=
  ((if p - Int.tdiv small 2 < 0 then p else Int.tdiv small 2),
   (if full < p + Int.tdiv small 2 then full - p else Int.tdiv small 2) + 1)

/-- get_spans: zip coordinate, cube extent and stamp extent per axis. -/
def get_spans (fulls smalls ps : List ℤ) : List (ℤ × ℤ) :=
  (ps.zip (fulls.zip smalls)).map (fun t => spanAxis t.2.1 t.2.2 t.1)

/-- Claim C5, counterexample: as stated the claim is false.  For cube
extent 10, stamp extent 5 (half-extent 2) and coordinate 8, get_spans
returns (2, 3): the stored upper span is not min(half-extent, distance
to edge) = 2, and the destination range ends at 8 + 3 = 11, outside the
cube bound 10. -/
theorem claim_C5_counterexample :
    get_spans [10] [5] [8] = [(2, 3)] ∧
    ((2:ℤ), (3:ℤ)).2 ≠ min (Int.tdiv 5 2) (10 - 8) ∧
    ¬ ((8:ℤ) + ((2:ℤ), (3:ℤ)).2 ≤ 10) := by
  refine ⟨rfl, by decide, by decide⟩

/-- Claim C5, amended: on each axis with coordinate p, cube extent full
and stamp half-extent h = small//2, the spans (l, u) returned by
get_spans satisfy p - l = max(p - h, 0) — so the destination range
never starts below 0 — and p + u = min(p + h, full) + 1, which lies
within the cube bound iff p + h < full.  The claimed upper span is
min(h, full - p); the actual stored value is one more, and whenever
p + h ≥ full the destination range ends exactly one past the cube
bound (the source compensates by slice clipping at assignment time). -/
theorem claim_C5_get_spans_spans (fulls smalls ps : List ℤ) :
    List.Forall₂ (fun t s =>
        t.1 - s.1 = max (t.1 - Int.tdiv t.2.2 2) 0 ∧
        t.1 + s.2 = min (t.1 + Int.tdiv t.2.2 2) t.2.1 + 1 ∧
        (t.1 + s.2 ≤ t.2.1 ↔ t.1 + Int.tdiv t.2.2 2 < t.2.1))
      (ps.zip (fulls.zip smalls)) (get_spans fulls smalls ps) := by
  unfold get_spans
  rw [List.forall₂_map_right_iff]
  rw [List.forall₂_same]
  intro t ht
  unfold spanAxis
  dsimp only
  split_ifs <;> refine ⟨by omega, by omega, by omega⟩

/-! ## create_from_df (src/utils/segmentmap.py lines 77-95)

One catalog row carries the prepared pixel coordinates and derived
stamp parameters.  The voxel values of the rasterized stamp (skimage
ellipse drawing plus rotation) are abstracted into a stamp function
giving the value written at an absolute voxel; only WHERE the code
writes matters for the claims here.  A record is skipped when
2 * minor_radius_pixels is below the configured min_axis_pixels
threshold; otherwise its stamp values are assigned (set, not
accumulated) over the clipped destination range computed from
get_spans, which numpy slice semantics intersect with the cube
bounds. -/

/-- One prepared catalog row (prepare_df output fields used by
create_from_df). -/
structure SRow where
  x : ℤ
  y : ℤ
  z : ℤ
  major_radius_pixels : ℚ
  minor_radius_pixels : ℚ
  n_channels : ℚ
  pa : ℚ

/-- Membership of coordinate v in the clipped destination range of one
axis: from p - lower_span up to (exclusive) p + stored_upper_span,
intersected with the cube extent. -/
abbrev axisSpanRange (full small p v : ℤ) : Prop :=
  p - (spanAxis full small p).1 ≤ v ∧ v < min (p + (spanAxis full small p).2) full

/-- Membership of a voxel in the clipped stamp span of a record: the
three axes are (x, NAXIS1), (y, NAXIS2), (z, NAXIS3), with the square
cross-section extent on x and y and the channel extent on z. -/
abbrev inClippedSpan (shape : ℤ × ℤ × ℤ) (r : SRow) (v : ℤ × ℤ × ℤ) : Prop :=
  axisSpanRange shape.1 (square_side r.major_radius_pixels r.minor_radius_pixels) r.x v.1 ∧
  axisSpanRange shape.2.1 (square_side r.major_radius_pixels r.minor_radius_pixels) r.y v.2.1 ∧
  axisSpanRange shape.2.2 (cube_channels r.n_channels) r.z v.2.2

/-- The body of the record loop of create_from_df: skip the record if
twice its minor radius is below the threshold, else write its stamp
values over the clipped span. -/
def stampStep (minAxis : ℚ) (stamp : SRow → ℤ × ℤ × ℤ → ℚ) (shape : ℤ × ℤ × ℤ)
    (vol : ℤ × ℤ × ℤ → ℚ) (r : SRow) : ℤ × ℤ × ℤ → ℚ :=
  if 2 * r.minor_radius_pixels < minAxis then vol
  else fun v => if inClippedSpan shape r v then stamp r v else vol v

/-- create_from_df: fold the record loop over the catalog, starting
from the all-zero volume. -/
def create_from_df (minAxis : ℚ) (stamp : SRow → ℤ × ℤ × ℤ → ℚ)
    (shape : ℤ × ℤ × ℤ) (rows : List SRow) : ℤ × ℤ × ℤ → ℚ :=
  rows.foldl (stampStep minAxis stamp shape) (fun _ => 0)

theorem stampStep_foldl_support (minAxis : ℚ) (stamp : SRow → ℤ × ℤ × ℤ → ℚ)
    (shape : ℤ × ℤ × ℤ) :
    ∀ (rows : List SRow) (vol : ℤ × ℤ × ℤ → ℚ) (v : ℤ × ℤ × ℤ),
      (rows.foldl (stampStep minAxis stamp shape) vol) v ≠ 0 →
      vol v ≠ 0 ∨ ∃ r ∈ rows,
        ¬ (2 * r.minor_radius_pixels < minAxis) ∧ inClippedSpan shape r v := by
  intro rows
  induction rows with
  | nil => intro vol v h; exact Or.inl h
  | cons r t ih =>
    intro vol v h
    rcases ih (stampStep minAxis stamp shape vol r) v h with h1 | ⟨r2, hr2, hq2, hs2⟩
    · unfold stampStep at h1
      by_cases hsk : 2 * r.minor_radius_pixels < minAxis
      · rw [if_pos hsk] at h1
        exact Or.inl h1
      · rw [if_neg hsk] at h1
        by_cases hin : inClippedSpan shape r v
        · exact Or.inr ⟨r, List.mem_cons_self r t, hsk, hin⟩
        · rw [if_neg hin] at h1
          exact Or.inl h1
    · exact Or.inr ⟨r2, List.mem_cons_of_mem r hr2, hq2, hs2⟩

/-- Claim C7: in the volume built by create_from_df, every voxel with a
nonzero value lies in the clipped stamp span of some record that passed
the 2 * minor_radius_pixels ≥ min_axis_pixels test.  Contrapositively,
voxels outside every qualifying record's clipped span — in particular
voxels only covered by skipped (too small) records — stay 0. -/
theorem claim_C7_create_from_df_support (minAxis : ℚ)
    (stamp : SRow → ℤ × ℤ × ℤ → ℚ) (shape : ℤ × ℤ × ℤ) (rows : List SRow)
    (v : ℤ × ℤ × ℤ) (h : create_from_df minAxis stamp shape rows v ≠ 0) :
    ∃ r ∈ rows, ¬ (2 * r.minor_radius_pixels < minAxis) ∧ inClippedSpan shape r v := by
  rcases stampStep_foldl_support minAxis stamp shape rows (fun _ => 0) v h with h1 | h2
  · exact absurd rfl h1
  · exact h2

/-- The record used in the C7 witness: a source at (5,5,5) with unit
radii and one channel. -/
def wrow : SRow :=
  { x := 5, y := 5, z := 5, major_radius_pixels := 1, minor_radius_pixels := 1,
    n_channels := 1, pa := 0 }

/-- Witness for C7: with threshold 0, constant stamp value 1 and cube
shape (10,10,10), the built volume is nonzero at voxel (5,5,5), and the
claim's conclusion holds there. -/
theorem claim_C7_create_from_df_support_witness :
    ∃ r ∈ [wrow], ¬ (2 * r.minor_radius_pixels < (0:ℚ)) ∧
      inClippedSpan (10, 10, 10) r (5, 5, 5) :=
  claim_C7_create_from_df_support 0 (fun _ _ => 1) (10, 10, 10) [wrow] (5, 5, 5)
    (by
      have h1 : square_side wrow.major_radius_pixels wrow.minor_radius_pixels = 3 := by
        show square_side 1 1 = 3
        norm_num [square_side, forceOdd, npRound]
      have h2 : cube_channels wrow.n_channels = 1 := by
        show cube_channels 1 = 1
        norm_num [cube_channels, forceOdd, npRound]
      have hin : inClippedSpan (10, 10, 10) wrow (5, 5, 5) := by
        refine ⟨?_, ?_, ?_⟩
        · show axisSpanRange 10 (square_side wrow.major_radius_pixels wrow.minor_radius_pixels) 5 5
          rw [h1]; decide
        · show axisSpanRange 10 (square_side wrow.major_radius_pixels wrow.minor_radius_pixels) 5 5
          rw [h1]; decide
        · show axisSpanRange 10 (cube_channels wrow.n_channels) 5 5
          rw [h2]; decide
      unfold create_from_df
      simp only [List.foldl]
      unfold stampStep
      rw [if_neg (by norm_num [wrow])]
      dsimp only
      rw [if_pos hin]
      norm_num)

/-! ## create_data_set, frequency window counts (src/utils/data.py lines 17-24, 48-51)

part_size[i] = int((upper_band[i] - lower_band[i]) / freq_band); with
freq_points_f not supplied it becomes
np.arange(min(part_size), max(part_size) + 1) * 2 + 1, and record i
draws freq_points_f[part_size[i]] frequency windows.  Before any record
is processed, line 24 computes np.bincount(part_size) * freq_points_f;
np.bincount requires the entries to be nonnegative and returns an array
of length max + 1, while freq_points_f has length max - min + 1, so the
elementwise product (and hence the rest of the function) is reachable
only when min = 0 (equal lengths) or min = max (length-1 broadcast).
The list index models the numpy fancy index, which raises when out of
range. -/

/-- np.min of a nonempty integer list. -/
def listMin (l : List ℤ) : ℤ := l.foldl min l.headI

/-- np.max of a nonempty integer list. -/
def listMax (l : List ℤ) : ℤ := l.foldl max l.headI

/-- The number of whole frequency partitions a record's band spans:
int((upper_band - lower_band) / freq_band), truncated toward zero. -/
def part_size (upperBand lowerBand freqBand : ℤ) : ℤ :=
  Int.tdiv (upperBand - lowerBand) freqBand

/-- The derived frequency-window count table
np.arange(min(ps), max(ps) + 1) * 2 + 1. -/
def defaultFreqPoints (ps : List ℤ) : List ℤ :=
  (List.range (listMax ps - listMin ps + 1).toNat).map
    (fun (k : ℕ) => (listMin ps + (k : ℤ)) * 2 + 1)

/-- The condition under which line 24's
np.bincount(part_size) * freq_points_f is defined: bincount requires
nonnegative entries, and the product requires the operand lengths
max+1 and max-min+1 to match (min = 0) or one of them to be 1
(min = max, broadcasting). -/
abbrev bincountCompatible (ps : List ℤ) : Prop :=
  (∀ b ∈ ps, 0 ≤ b) ∧ (listMin ps = 0 ∨ listMin ps = listMax ps)

theorem foldl_min_le_init (l : List ℤ) (a : ℤ) : l.foldl min a ≤ a := by
  induction l generalizing a with
  | nil => exact le_refl a
  | cons x t ih => exact le_trans (ih (min a x)) (min_le_left a x)

theorem foldl_min_le (l : List ℤ) (a : ℤ) {b : ℤ} (hb : b ∈ l) :
    l.foldl min a ≤ b := by
  induction l generalizing a with
  | nil => cases hb
  | cons x t ih =>
    rcases List.mem_cons.mp hb with rfl | hb2
    · exact le_trans (foldl_min_le_init t (min a b)) (min_le_right a b)
    · exact ih (min a x) hb2

theorem le_foldl_min (l : List ℤ) (a c : ℤ) (hca : c ≤ a)
    (h : ∀ x ∈ l, c ≤ x) : c ≤ l.foldl min a := by
  induction l generalizing a with
  | nil => exact hca
  | cons x t ih =>
    exact ih (min a x) (le_min hca (h x (List.mem_cons_self x t)))
      (fun y hy => h y (List.mem_cons_of_mem x hy))

theorem listMin_le {l : List ℤ} {b : ℤ} (hb : b ∈ l) : listMin l ≤ b :=
  foldl_min_le l l.headI hb

theorem listMin_nonneg {l : List ℤ} (hl : l ≠ []) (h : ∀ x ∈ l, 0 ≤ x) :
    0 ≤ listMin l := by
  unfold listMin
  apply le_foldl_min l l.headI 0 _ h
  cases l with
  | nil => exact absurd rfl hl
  | cons x t => exact h x (List.mem_cons_self x t)

/-- Claim C4: whenever the default (not supplied) freq_points_f table
is in use, the bincount product of line 24 is defined (so execution
reaches the drawing loop at all), and the fancy index
freq_points_f[part_size[i]] yields a value, that value equals
2 * part_size[i] + 1.  The hypotheses are exactly the well-definedness
conditions of the source: they force min(part_size) = 0, under which
the table entry at index b is (0 + b) * 2 + 1. -/
theorem claim_C4_default_freq_points (ps : List ℤ) (b c : ℤ)
    (hcompat : bincountCompatible ps) (hb : b ∈ ps)
    (hdraw : (defaultFreqPoints ps)[b.toNat]? = some c) :
    c = 2 * b + 1 := by
  obtain ⟨hnn, hminmax⟩ := hcompat
  have hb0 : 0 ≤ b := hnn b hb
  have hne : ps ≠ [] := List.ne_nil_of_mem hb
  have hk : b.toNat < (defaultFreqPoints ps).length := by
    by_contra hge
    rw [List.getElem?_eq_none (le_of_not_lt hge)] at hdraw
    cases hdraw
  have hlen2 : (defaultFreqPoints ps).length = (listMax ps - listMin ps + 1).toNat := by
    unfold defaultFreqPoints
    rw [List.length_map, List.length_range]
  have hval : c = (listMin ps + (b.toNat : ℤ)) * 2 + 1 := by
    have hd : (defaultFreqPoints ps).getD b.toNat 0 = c := by
      rw [List.getD_eq_getElem?_getD, hdraw]
      rfl
    rw [← hd]
    unfold defaultFreqPoints
    rw [getD_map_range _ _ _ (by rw [hlen2] at hk; exact hk) 0]
  by_cases hmin0 : listMin ps = 0
  · rw [hmin0, Int.toNat_of_nonneg hb0] at hval
    omega
  · exfalso
    have heq : listMin ps = listMax ps := by
      rcases hminmax with h | h
      · exact absurd h hmin0
      · exact h
    have hmin_nn : 0 ≤ listMin ps := listMin_nonneg hne hnn
    have hmin_le : listMin ps ≤ b := listMin_le hb
    rw [hlen2] at hk
    omega

/-- Witness for C4: part sizes [0, 1], record with part_size 1: the
table is [1, 3] and index 1 yields 3 = 2 * 1 + 1. -/
theorem claim_C4_default_freq_points_witness :
    (defaultFreqPoints [0, 1])[(1:ℤ).toNat]? = some 3 ∧ (3:ℤ) = 2 * 1 + 1 :=
  ⟨by decide, claim_C4_default_freq_points [0, 1] 1 3 (by decide) (by decide) (by decide)⟩

/-! ## create_data_set output mapping (src/utils/data.py lines 31-35)

The function builds a plain dict and allocates, for n_points samples:
image (n_points, freq_band, side_length, side_length), sourcemap
(n_points, side_length, side_length), position (n_points, 3, 2),
class (n_points, 1 for the first n_sources entries else 0) and cluster
(n_points).  The copy loops (lines 39-76) only assign into slices of
these arrays, which neither adds keys nor changes shapes, so the
key-and-shape skeleton allocated at lines 31-35 is the skeleton of the
returned mapping.  No key named index or dim is ever created. -/

/-- The named arrays of the dict returned by create_data_set, as
(key, shape) pairs in allocation order. -/
def create_data_set_entries (nPoints freqBand sideLength : ℕ) :
    List (String × List ℕ) :=
  [("image", [nPoints, freqBand, sideLength, sideLength]),
   ("sourcemap", [nPoints, sideLength, sideLength]),
   ("position", [nPoints, 3, 2]),
   ("class", [nPoints]),
   ("cluster", [nPoints])]

/-- data['class'] = [1 if i < n_sources else 0 for i in range(n_points)]. -/
def classVector (nPoints nSources : ℕ) : List ℕ :=
  (List.range nPoints).map (fun i => if i < nSources then 1 else 0)

/-- Claim C6, counterexample: as stated the claim is false — the
mapping returned by create_data_set has no scalar metadata entries: no
key named index and no key named dim (those keys exist only in the
dataset produced by a different module, utils/data/generating, which
the claim does not describe). -/
theorem claim_C6_counterexample :
    "index" ∉ (create_data_set_entries 4 2 3).map Prod.fst ∧
    "dim" ∉ (create_data_set_entries 4 2 3).map Prod.fst := by
  constructor <;> decide

/-- Claim C6, amended: the mapping returned by create_data_set holds
exactly the arrays image (N, freq_band, side, side), sourcemap
(N, side, side), position (N, 3, 2), class (N) and cluster (N) — and
nothing else: in particular no index and no dim entry.  class marks the
first n_sources samples with 1 and the rest with 0. -/
theorem claim_C6_data_set_entries (nPoints nSources freqBand sideLength : ℕ) :
    (create_data_set_entries nPoints freqBand sideLength).map Prod.fst
      = ["image", "sourcemap", "position", "class", "cluster"] ∧
    "index" ∉ (create_data_set_entries nPoints freqBand sideLength).map Prod.fst ∧
    "dim" ∉ (create_data_set_entries nPoints freqBand sideLength).map Prod.fst ∧
    (create_data_set_entries nPoints freqBand sideLength).lookup "image"
      = some [nPoints, freqBand, sideLength, sideLength] ∧
    (create_data_set_entries nPoints freqBand sideLength).lookup "sourcemap"
      = some [nPoints, sideLength, sideLength] ∧
    (create_data_set_entries nPoints freqBand sideLength).lookup "position"
      = some [nPoints, 3, 2] ∧
    (create_data_set_entries nPoints freqBand sideLength).lookup "class"
      = some [nPoints] ∧
    (create_data_set_entries nPoints freqBand sideLength).lookup "cluster"
      = some [nPoints] ∧
    (classVector nPoints nSources).length = nPoints ∧
    (∀ i, i < nPoints →
      (classVector nPoints nSources).getD i 0 = if i < nSources then 1 else 0) := by
  have hkeys : (create_data_set_entries nPoints freqBand sideLength).map Prod.fst
      = ["image", "sourcemap", "position", "class", "cluster"] := rfl
  refine ⟨hkeys, by rw [hkeys]; decide, by rw [hkeys]; decide,
    rfl, rfl, rfl, rfl, rfl, by simp [classVector], ?_⟩
  intro i hi
  unfold classVector
  rw [getD_map_range nPoints _ i hi 0]

/-! ## create_sourcemap (src/utils/data.py lines 80-84)

For each catalog position row (x, y, z) the single voxel at index
(z, x, y) is set to 1 in an initially all-zero volume.  The volume is
modelled as a total function on integer triples; index bounds are not
modelled (numpy raises on an out-of-range nonnegative index). -/

/-- create_sourcemap: fold the single-voxel writes over the position
list, starting from the all-zero volume. -/
def create_sourcemap (positions : List (ℤ × ℤ × ℤ)) : ℤ × ℤ × ℤ → ℕ :=
  positions.foldl
    (fun m pos => fun v => if v = (pos.2.2, pos.1, pos.2.1) then 1 else m v)
    (fun _ => 0)

theorem sourcemap_foldl_char (positions : List (ℤ × ℤ × ℤ))
    (m : ℤ × ℤ × ℤ → ℕ) (v : ℤ × ℤ × ℤ) :
    (positions.foldl
        (fun m pos => fun v => if v = (pos.2.2, pos.1, pos.2.1) then 1 else m v)
        m) v =
      if v ∈ positions.map (fun p => (p.2.2, p.1, p.2.1)) then 1 else m v := by
  induction positions generalizing m with
  | nil => simp
  | cons p t ih =>
    rw [List.foldl_cons, ih]
    by_cases ht : v ∈ t.map (fun p => (p.2.2, p.1, p.2.1))
    · rw [if_pos ht, if_pos (by simp [ht])]
    · rw [if_neg ht]
      by_cases hp : v = (p.2.2, p.1, p.2.1)
      · rw [if_pos hp, if_pos (by simp [hp])]
      · rw [if_neg hp, if_neg (by simp [hp, ht])]

/-- Claim C10: the volume built by create_sourcemap is 1 exactly at the
voxels (z, x, y) of the listed positions and 0 everywhere else, so its
set of nonzero voxels has at most as many elements as the catalog has
rows — single center voxels, not rasterized footprints. -/
theorem claim_C10_create_sourcemap (positions : List (ℤ × ℤ × ℤ))
    (v : ℤ × ℤ × ℤ) :
    (create_sourcemap positions v = 1 ↔
      v ∈ positions.map (fun p => (p.2.2, p.1, p.2.1))) ∧
    (create_sourcemap positions v = 0 ∨ create_sourcemap positions v = 1) ∧
    (positions.map (fun p => (p.2.2, p.1, p.2.1))).toFinset.card
      ≤ positions.length := by
  have hc := sourcemap_foldl_char positions (fun _ => 0) v
  refine ⟨?_, ?_, ?_⟩
  · unfold create_sourcemap
    rw [hc]
    split
    · simp only [true_iff]
      assumption
    · simp only [Nat.zero_ne_one, false_iff]
      assumption
  · unfold create_sourcemap
    rw [hc]
    split
    · exact Or.inr rfl
    · exact Or.inl rfl
  · calc (positions.map (fun p => (p.2.2, p.1, p.2.1))).toFinset.card
        ≤ (positions.map (fun p => (p.2.2, p.1, p.2.1))).length :=
          List.toFinset_card_le _
      _ = positions.length := List.length_map _ _

end SKA
